import Mathlib

/-!
# Verification of the Puerro virtual-DOM core and observable primitives

Shallow embedding of the virtual-DOM module of the repository (`vNode`, `render`,
`diff`, `changed`, from the IIFE vdom script) and of the observable module
(`Observable`, `ObservableObject`, `ObservableList`).

JavaScript values that can appear as attribute values are modelled by `AVal`;
virtual-DOM nodes by `VNode`; realized (live) DOM nodes by `RNode`.  The
effectful `diff` routine is modelled as a pure function that emits the list
of DOM mutations it would perform.
-/

set_option maxHeartbeats 1000000

namespace Puerro

/-- JavaScript values usable as attribute values in a VNode attribute object.
`AVal.null` models both JS `null` and `undefined`: all the code under study
compares them only with loose `null ==` checks (which identify the two) or
with strict `!==` followed by a stringified comparison in which both sides
stringify to the empty string, so the collapse is observationally faithful there.
`fn id` models a function value; `id` is its reference identity. -/
inductive AVal where
  | str (s : String)
  | int (n : Int)
  | fn (id : Nat)
  | boolean (b : Bool)
  | null
deriving DecidableEq, Repr

/-- The JS null-guarded stringification used in `changed` (null or
undefined becomes the empty string before calling toString): strings are themselves; numbers print in
decimal; booleans print `true`/`false`; `Function.toString` returns the
source text of the function, modelled injectively from its identity. -/
def AVal.toStr : AVal → String
  | .str s => s
  | .int n => toString n
  | .fn id => "function " ++ toString id
  | .boolean b => if b then "true" else "false"
  | .null => ""

/-- A value that can sit in a VNode `children` array (after the one-level
flattening done by the constructor): an element object, a string, a number,
or `null`/`undefined` (`vnull`; the two are indistinguishable to `diff`,
which only tests them with loose `null ==`). The `attributes` of an
element are the own enumerable entries of the object in insertion order. -/
inductive VNode where
  | elem (tagName : String) (attributes : List (String × AVal)) (children : List VNode)
  | text (s : String)
  | int (n : Int)
  | vnull

/-- JS `typeof` on a VNode-position value (`typeof null` is `"object"`). -/
def jsTypeof : VNode → String
  | .elem _ _ _ => "object"
  | .text _ => "string"
  | .int _ => "number"
  | .vnull => "object"

/-- Access to the `type` property of a VNode-position value.  VNode objects
are created with exactly the fields `tagName`, `attributes`, `children`, so
`.type` is `undefined` on every element; on string and number primitives it
is likewise `undefined`.  (On `null` the access would throw in JS; `diff`
never calls `changed` on null nodes.) -/
def typeField (_ : VNode) : Option AVal := none

/-- `attributes[a]` lookup: absent keys read as `undefined`, which the code
under study treats identically to a stored `null` (see `AVal.null`). -/
def lookupAttr (attrs : List (String × AVal)) (a : String) : AVal :=
  match attrs.lookup a with
  | some v => v
  | none => AVal.null

/-- The `attributes` property of a VNode-position value: an object for
elements, `undefined` (falsy) for primitives and null. -/
def attributesOf : VNode → Option (List (String × AVal))
  | .elem _ attrs _ => some attrs
  | _ => none

/-- JS strict equality `===` at the one place `changed` evaluates it, where
the guard has established that `node1` is a string or number primitive: two
primitives are `===` exactly when they have the same type and value; a
primitive is never `===` a value of another type.  (Reference equality of
two objects is unreachable under the guard and modelled as `false`.) -/
def strictEqVal : VNode → VNode → Bool
  | .text s1, .text s2 => s1 == s2
  | .int n1, .int n2 => n1 == n2
  | _, _ => false

/-- `changed(node1, node2)` from the vdom module, line for line:

`nodeChanged` is `typeof node1 !== typeof node2 ||
((typeof node1 is string or number) && node1 !== node2) ||
node1.type !== node2.type`.  Note the last disjunct reads the nonexistent
`type` property (the constructor only ever creates `tagName`), so it
compares `undefined` with `undefined` and never fires.

`attributesChanged` is `!!node1.attributes && !!node2.attributes &&
(key-count differs || some key of node1 has values that differ under `!==`
and also differ once null-guarded and stringified)`. -/
def changed (node1 node2 : VNode) : Bool :=
  let nodeChanged :=
    (jsTypeof node1 != jsTypeof node2)
    || (((jsTypeof node1 == "string") || (jsTypeof node1 == "number"))
          && !(strictEqVal node1 node2))
    || (typeField node1 != typeField node2)
  let attributesChanged :=
    match attributesOf node1, attributesOf node2 with
    | some a1, some a2 =>
        (a1.length != a2.length)
        || (a1.map Prod.fst).any (fun a =>
              (lookupAttr a1 a != lookupAttr a2 a)
              && ((lookupAttr a1 a).toStr != (lookupAttr a2 a).toStr))
    | _, _ => false
  nodeChanged || attributesChanged

/-- A realized ("live") DOM node: an element with its string attributes, its
registered event listeners (event name and the identity of the handler
function), and its children, or a text node.  This is the tree that
`document.createElement` / `createTextNode` / `appendChild` build. -/
inductive RNode where
  | elem (tagName : String) (attrs : List (String × String))
      (listeners : List (String × Nat)) (children : List RNode)
  | textNode (content : String)

/-- `createDomElement(tagName, attributes)` (with the default `innerHTML` of
the empty string, which is what `render` passes): creates an element, then walks the
attribute entries, skipping `null`/`undefined` values, registering function
values as event listeners under their key and setting every other value as a
stringified attribute.  The source iterates `Object.keys` once; splitting the
walk into the attribute half and the listener half preserves the per-category
order, which is all the element records. -/
def createDomElement (tagName : String) (attributes : List (String × AVal)) : RNode :=
  let kept := attributes.filter (fun p => p.2 != AVal.null)
  RNode.elem tagName
    (kept.filterMap (fun p =>
      match p.2 with
      | AVal.fn _ => none
      | v => some (p.1, v.toStr)))
    (kept.filterMap (fun p =>
      match p.2 with
      | AVal.fn id => some (p.1, id)
      | _ => none))
    []

/-- `$element.appendChild` for each listed child, in order. -/
def appendChildren : RNode → List RNode → RNode
  | .elem t a l cs, more => .elem t a l (cs ++ more)
  | .textNode s, _ => .textNode s

mutual
/-- `render(node)` from the vdom module: null/undefined become an empty text
node, strings and numbers a text node with that content, and an element node
is created via `createDomElement` with each child rendered and appended in
order. -/
def render : VNode → RNode
  | .vnull => .textNode ""
  | .text s => .textNode s
  | .int n => .textNode (toString n)
  | .elem t attrs cs => appendChildren (createDomElement t attrs) (renderList cs)

/-- `node.children.forEach(c => $element.appendChild(render(c)))`. -/
def renderList : List VNode → List RNode
  | [] => []
  | c :: rest => render c :: renderList rest
end

/-- One DOM mutation performed by `diff`.  `path` locates the `$parent` the
mutation is applied to, as the chain of child indices (`$parent.childNodes[i]`)
descended from the parent of the outermost call. -/
inductive DiffOp where
  | append (path : List Nat) (node : RNode)
  | removeAt (path : List Nat) (index : Nat)
  | replaceAt (path : List Nat) (index : Nat) (node : RNode)

/-- The parent path an operation is applied at. -/
def DiffOp.path : DiffOp → List Nat
  | .append p _ => p
  | .removeAt p _ => p
  | .replaceAt p _ _ => p

/-- The child index an operation acts on (`removeChild` and `replaceChild`
target `$parent.childNodes[index]`; `appendChild` has no index). -/
def DiffOp.argIndex : DiffOp → Option Nat
  | .append _ _ => none
  | .removeAt _ j => some j
  | .replaceAt _ j _ => some j

/-- The loose test `null == node`: true exactly on `null`/`undefined`. -/
def isNullish : VNode → Bool
  | .vnull => true
  | _ => false

/-- The `children` property read by the recursion of `diff`
(`oldNode.children[i]`).  At that point `oldNode` is an element (see
`diff`); for the unreachable primitive case, where JS would throw on the
subsequent index access, the model reads an empty list. -/
def childrenOf : VNode → List VNode
  | .elem _ _ cs => cs
  | _ => []

mutual
/-- `diff($parent, newNode, oldNode, index)` from the vdom module, modelled
as the list of DOM mutations it performs (its control flow never reads the
live tree):
`null == oldNode` → append `render(newNode)` to `$parent`;
`null == newNode` → remove `$parent.childNodes[index]`;
`changed(oldNode, newNode)` → replace the child at `index` with
`render(newNode)`; otherwise, when `newNode.tagName` is truthy (a nonempty
tag string), recurse over `newNode.children` against `oldNode.children[i]`
inside `$parent.childNodes[index]`.  When `changed` is false and `newNode`
is an element, `oldNode` is necessarily an element too (equal `typeof`),
so `childrenOf oldNode` is its children array. -/
def diff (path : List Nat) (newNode oldNode : VNode) (index : Nat) : List DiffOp :=
  if isNullish oldNode then [DiffOp.append path (render newNode)]
  else if isNullish newNode then [DiffOp.removeAt path index]
  else if changed oldNode newNode then [DiffOp.replaceAt path index (render newNode)]
  else
    match newNode with
    | .elem t _ newCs =>
        if t == "" then [] else diffChildren (path ++ [index]) newCs (childrenOf oldNode) 0
    | _ => []
termination_by sizeOf newNode

/-- `newNode.children.forEach((newNode, i) => diff($parent.childNodes[index],
newNode, oldNode.children[i], i))`: `i` counts from `0`; an out-of-range read
of `oldNode.children[i]` yields `undefined`, hence `.vnull`. -/
def diffChildren (path : List Nat) (newCs oldCs : List VNode) (i : Nat) : List DiffOp :=
  match newCs with
  | [] => []
  | c :: rest => diff path c (oldCs.getD i .vnull) i ++ diffChildren path rest oldCs (i + 1)
termination_by sizeOf newCs
end

mutual
/-- A NodeRep in the sense of the data model of the specification: an element
whose children are themselves NodeReps, or a text/number primitive — never
`null`/`undefined`. -/
def noNull : VNode → Bool
  | .elem _ _ cs => noNullList cs
  | .text _ => true
  | .int _ => true
  | .vnull => false

/-- All members of a children list are NodeReps. -/
def noNullList : List VNode → Bool
  | [] => true
  | c :: rest => noNull c && noNullList rest
end

/-- One argument of the variadic `vNode(tagName, attributes, ...nodes)`
call: either a single child value or an array of child values. -/
inductive ChildArg where
  | single (v : VNode)
  | arr (vs : List VNode)

/-- `[].concat(...nodes)`: array arguments are spliced in (one level of
flattening), plain values are kept as they are — including null/undefined
values, which are not removed. -/
def flattenArgs : List ChildArg → List VNode
  | [] => []
  | ChildArg.single v :: rest => v :: flattenArgs rest
  | ChildArg.arr vs :: rest => vs ++ flattenArgs rest

/-- `vNode(tagName, attributes, ...nodes)` from the vdom module: the
attribute object defaults to `{}` when null/undefined is passed, and the
children are the one-level-flattened rest arguments.  (The guard
`null == nodes ? [] : ...` is dead code: a rest parameter is always an
array.) -/
def vNode (tagName : String) (attributes : Option (List (String × AVal)))
    (nodes : List ChildArg) : VNode :=
  VNode.elem tagName
    (match attributes with
     | none => []
     | some attrs => attrs)
    (flattenArgs nodes)

/-- Replace the path of an operation (used to express descending
one level while applying an operation). -/
def DiffOp.withPath : DiffOp → List Nat → DiffOp
  | .append _ n, p => .append p n
  | .removeAt _ j, p => .removeAt p j
  | .replaceAt _ j n, p => .replaceAt p j n

mutual
/-- Apply one `DiffOp` to a live tree rooted at the `$parent` of the
outermost `diff` call: descend along the path of the operation, then append
the node at the end of the children of that parent, remove the child at the given
index (`removeChild($parent.childNodes[index])`), or replace it
(`replaceChild`).  Host errors on out-of-range indices are not modelled —
the mutation is then a no-op. -/
def applyOp : RNode → DiffOp → RNode
  | .textNode s, _ => .textNode s
  | .elem t a l cs, op =>
    match op.path with
    | [] =>
      match op with
      | .append _ node => .elem t a l (cs ++ [node])
      | .removeAt _ j => .elem t a l (cs.eraseIdx j)
      | .replaceAt _ j node => .elem t a l (cs.set j node)
    | i :: rest => .elem t a l (applyOpList cs i (op.withPath rest))

/-- Apply an operation to the `i`-th member of a children list. -/
def applyOpList : List RNode → Nat → DiffOp → List RNode
  | [], _, _ => []
  | c :: cs, 0, op => applyOp c op :: cs
  | c :: cs, i + 1, op => c :: applyOpList cs i op
end

/-- Apply the mutations of a `diff` run, in order. -/
def applyOps (r : RNode) (ops : List DiffOp) : RNode := ops.foldl applyOp r

/-! ## The observable module -/

/-- A JS value stored in an observable container.  `undef` is `undefined`
(the value an absent key reads as, and the value `remove` writes). -/
inductive JSVal where
  | undef
  | int (n : Int)
  | str (s : String)
  | boolean (b : Bool)
deriving DecidableEq, Repr

/-- A JS object snapshot: its own enumerable entries in insertion order,
which is both the spread-copy order and the `Object.keys` iteration order.
A JS object holds each key at most once; operations below iterate entries
directly, which agrees with iterating `Object.keys` and indexing. -/
abbrev JSObj := List (String × JSVal)

/-- `o[k]`: an absent key reads as `undefined`. -/
def jsGet (o : JSObj) (k : String) : JSVal := (o.lookup k).getD JSVal.undef

/-- The object literal `{ ...s, ...p }`: the keys of `s` in order, each
taking the value from `p` when `p` also has the key, followed by the keys
of `p` not in `s`, in the order of `p`.  Keys spread from `p` with value `undefined`
are still own keys of the result. -/
def spreadMerge (s p : JSObj) : JSObj :=
  s.map (fun e => (e.1, match p.lookup e.1 with
                        | some w => w
                        | none => e.2))
    ++ p.filter (fun e => (s.lookup e.1).isNone)

/-- What one `notify` run of `ObservableObject` broadcasts: `keyEvents` are
the `(key, newValue, oldValue)` triples offered (in `Object.keys(newObject)`
order) to the subscribers of that key, and `objEvents` the
`(newObject, oldObject)` pairs offered to every whole-object listener. -/
structure ObsNotifications where
  keyEvents : List (String × JSVal × JSVal)
  objEvents : List (JSObj × JSObj)
deriving DecidableEq, Repr

/-- `notify(newObject)` of `ObservableObject`: walks the keys of the new
object, broadcasting `(newValue, oldValue)` to the subscribers of the key
whenever `oldValue === newValue` fails, then broadcasts
`(newObject, oldObject)` to the whole-object listeners.  The opening guard
`if (object == newObject) return;` loosely compares two objects, which is
reference equality; every caller (`set`/`push`/`remove`) passes a freshly
constructed object literal, never the stored reference, so the guard never
fires on those paths and the model omits it. -/
def obsObjNotify (object newObject : JSObj) : JSObj × ObsNotifications :=
  (newObject,
   { keyEvents := newObject.filterMap (fun e =>
       if jsGet object e.1 = e.2 then none
       else some (e.1, e.2, jsGet object e.1)),
     objEvents := [(newObject, object)] })

/-- `set(newObject)`: `notify({ ...object, ...newObject })`. -/
def obsObjSet (object p : JSObj) : JSObj × ObsNotifications :=
  obsObjNotify object (spreadMerge object p)

/-- `push(key, value)`: `notify({ ...object, ...{ [key]: value } })`. -/
def obsObjPush (object : JSObj) (key : String) (value : JSVal) :
    JSObj × ObsNotifications :=
  obsObjNotify object (spreadMerge object [(key, value)])

/-- `remove(key)`: `notify({ ...object, ...{ [key]: undefined } })` — the
key stays an own key of the snapshot, now holding `undefined`. -/
def obsObjRemove (object : JSObj) (key : String) : JSObj × ObsNotifications :=
  obsObjNotify object (spreadMerge object [(key, JSVal.undef)])

/-- Deliver broadcast key events to registered per-key subscribers
(`(subscribers[key] || []).forEach(subscriber => subscriber(newValue,
oldValue))`): for each event in broadcast order, each subscriber of that
key (in registration order) is called with `(newValue, oldValue)`.
Callbacks are identified by a numeric id. -/
def subscriberCalls (subscribers : List (String × Nat))
    (events : List (String × JSVal × JSVal)) : List (Nat × JSVal × JSVal) :=
  events.flatMap (fun ev =>
    (subscribers.filter (fun s => s.1 = ev.1)).map (fun s => (s.2, ev.2.1, ev.2.2)))

/-- The private state of one `ObservableObject`: the current snapshot, the
whole-object listeners in registration order, and the per-key subscribers
in registration order (callbacks identified by numeric ids). -/
structure ObsObjState where
  object : JSObj
  listeners : List Nat
  subscribers : List (String × Nat)
deriving DecidableEq, Repr

/-- `onChange(callback)`: `listeners.push(callback); callback(object,
object);` — returns the new state and the immediate calls made, as
`(callback, newArg, oldArg)` triples. -/
def obsObjOnChange (st : ObsObjState) (cb : Nat) :
    ObsObjState × List (Nat × JSObj × JSObj) :=
  ({ st with listeners := st.listeners ++ [cb] }, [(cb, st.object, st.object)])

/-- `subscribe(key, callback)`: appends the callback to the per-key subscriber
list and immediately calls it with `(object[key], object[key])`. -/
def obsObjSubscribe (st : ObsObjState) (key : String) (cb : Nat) :
    ObsObjState × List (Nat × JSVal × JSVal) :=
  ({ st with subscribers := st.subscribers ++ [(key, cb)] },
   [(cb, jsGet st.object key, jsGet st.object key)])

/-- The private state of one `Observable`: the current item and the
listeners in registration order (callbacks identified by numeric ids).
`α` is the type of stored values; `===` on them is modelled by decidable
equality, which is what `===` computes on JS primitives. -/
structure ObservableState (α : Type) where
  item : α
  listeners : List Nat
deriving DecidableEq, Repr

/-- `Observable.set(newItem)`: `if (item === newItem) return;` else store
`newItem` and call every listener, in registration order, with
`(newItem, oldItem)`.  Returns the new state and the calls made as
`(listener, newArg, oldArg)` triples. -/
def obsSet {α : Type} [DecidableEq α] (st : ObservableState α) (newItem : α) :
    ObservableState α × List (Nat × α × α) :=
  if st.item = newItem then (st, [])
  else ({ st with item := newItem },
        st.listeners.map (fun id => (id, newItem, st.item)))

/-- `Observable.onChange(callback)`: register, then immediately call with
`(item, item)`. -/
def obsOnChange {α : Type} (st : ObservableState α) (cb : Nat) :
    ObservableState α × List (Nat × α × α) :=
  ({ st with listeners := st.listeners ++ [cb] }, [(cb, st.item, st.item)])

/-- The private state of one `ObservableList`: the backing sequence (shared
with the caller and mutated in place) and the three listener groups. -/
structure ObsListState (α : Type) where
  list : List α
  addListeners : List Nat
  removeListeners : List Nat
  replaceListeners : List Nat
deriving DecidableEq, Repr

/-- `Array.prototype.indexOf`: index of the first `===`-equal member,
`-1` when absent. -/
def jsIndexOf {α : Type} [DecidableEq α] : List α → α → Int
  | [], _ => -1
  | x :: xs, a =>
      if x = a then 0
      else
        let r := jsIndexOf xs a
        if r = -1 then -1 else r + 1

/-- `ObservableList.add(item)`: `list.push(item)`, then each `onAdd`
listener is called with the item. -/
def listAdd {α : Type} (st : ObsListState α) (item : α) :
    ObsListState α × List (Nat × α) :=
  ({ st with list := st.list ++ [item] },
   st.addListeners.map (fun id => (id, item)))

/-- `ObservableList.remove(item)`: `i = list.indexOf(item)`; when `i >= 0`,
`list.splice(i, 1)`; then each `onRemove` listener is called with the item
(also when nothing was removed). -/
def listRemove {α : Type} [DecidableEq α] (st : ObsListState α) (item : α) :
    ObsListState α × List (Nat × α) :=
  let i := jsIndexOf st.list item
  ({ st with list := if 0 ≤ i then st.list.eraseIdx i.toNat else st.list },
   st.removeListeners.map (fun id => (id, item)))

end Puerro

namespace Puerro

/-! ## Basic facts about `changed` -/

/-- `changed` on two elements with the same attribute list is false whatever
their tags and children are: the tag comparison reads the absent `type`
property and the attribute walk only ever compares equal values. -/
theorem changed_elem_elem (t t2 : String) (a : List (String × AVal))
    (cs cs2 : List VNode) :
    changed (VNode.elem t a cs) (VNode.elem t2 a cs2) = false := by
  simp [changed, jsTypeof, typeField, attributesOf]

/-- `changed` is reflexive-false: a node never differs from itself. -/
theorem changed_self (T : VNode) : changed T T = false := by
  cases T <;> simp [changed, jsTypeof, typeField, attributesOf, strictEqVal]

/-! ## Facts about `diff` on identical trees -/

/-- Every member of a `noNullList` children list is itself `noNull`. -/
theorem noNullList_mem {cs : List VNode} (h : noNullList cs = true) {c : VNode}
    (hc : c ∈ cs) : noNull c = true := by
  induction cs with
  | nil => cases hc
  | cons x xs ih =>
    rw [noNullList, Bool.and_eq_true] at h
    rcases List.mem_cons.mp hc with rfl | hmem
    · exact h.1
    · exact ih h.2 hmem

/-- Reading index `i` of a list whose `drop i` is known. -/
theorem getD_of_drop {cs : List VNode} {i : Nat} {c : VNode} {rest : List VNode}
    (h : cs.drop i = c :: rest) : cs.getD i VNode.vnull = c := by
  rw [List.getD_eq_getElem?_getD]
  have h0 : (cs.drop i)[0]? = some c := by rw [h]; simp
  rw [List.getElem?_drop] at h0
  simp only [Nat.add_zero] at h0
  rw [h0]
  rfl

/-- Dropping one more element of a list whose `drop i` is known. -/
theorem drop_succ_of_drop {cs : List VNode} {i : Nat} {c : VNode} {rest : List VNode}
    (h : cs.drop i = c :: rest) : cs.drop (i + 1) = rest := by
  have h2 := List.drop_drop 1 i cs
  rw [h] at h2
  simpa using h2.symm

/-- The child recursion of `diff` emits nothing when every new child equals
the old child at its index and diffs to nothing against itself. -/
theorem diffChildren_self_of (p : List Nat) :
    ∀ (cs : List VNode) (full : List VNode) (i : Nat), full.drop i = cs →
      (∀ c ∈ cs, ∀ p2 i2, diff p2 c c i2 = []) → diffChildren p cs full i = []
  | [], _, i, _, _ => by simp [diffChildren]
  | c :: rest, full, i, hdrop, H => by
      rw [diffChildren, getD_of_drop hdrop, H c (List.mem_cons_self c rest) p i,
        List.nil_append]
      exact diffChildren_self_of p rest full (i + 1) (drop_succ_of_drop hdrop)
        (fun c hc => H c (List.mem_cons_of_mem _ hc))

/-- `diff` emits no operation when the new and the old tree are the same
NodeRep (an element or primitive containing no null children). -/
theorem diff_self_of_noNull : ∀ (T : VNode), noNull T = true →
    ∀ (p : List Nat) (i : Nat), diff p T T i = []
  | VNode.vnull, hT => by simp [noNull] at hT
  | VNode.text s, _ => fun p i => by simp [diff, isNullish, changed_self]
  | VNode.int m, _ => fun p i => by simp [diff, isNullish, changed_self]
  | VNode.elem t a cs, hT => fun p i => by
      have H : ∀ c ∈ cs, ∀ p2 i2, diff p2 c c i2 = [] := fun c hc =>
        diff_self_of_noNull c (noNullList_mem (by simpa [noNull] using hT) hc)
      by_cases ht : t = ""
      · simp [diff, isNullish, changed_self, ht]
      · simp [diff, isNullish, changed_self, ht, childrenOf]
        exact diffChildren_self_of (p ++ [i]) cs cs 0 rfl H
termination_by T => sizeOf T
decreasing_by
  have h1 := List.sizeOf_lt_of_mem hc
  simp
  omega

/-! ## The shape of the operations `diff` emits -/

mutual
/-- Every operation emitted by `diff p T o i` either addresses the parent at
path `p` directly — and then its child index, when it has one, is `i` — or
addresses a node strictly below child `i` (its path extends `p ++ [i]`). -/
theorem diff_shape : ∀ (T o : VNode) (p : List Nat) (i : Nat) (op : DiffOp),
    op ∈ diff p T o i →
    (op.path = p ∧ ∀ j, op.argIndex = some j → j = i) ∨ (∃ s, op.path = p ++ i :: s)
  | T, o, p, i, op, hop => by
      rw [diff.eq_def] at hop
      split at hop
      · simp only [List.mem_singleton] at hop
        subst hop
        exact Or.inl ⟨rfl, by simp [DiffOp.argIndex]⟩
      · split at hop
        · simp only [List.mem_singleton] at hop
          subst hop
          exact Or.inl ⟨rfl, by simp [DiffOp.argIndex]⟩
        · split at hop
          · simp only [List.mem_singleton] at hop
            subst hop
            exact Or.inl ⟨rfl, by simp [DiffOp.argIndex]⟩
          · split at hop
            · rename_i t a cs hA hB
              split at hop
              · cases hop
              · rcases diffChildren_shape cs (childrenOf o) (p ++ [i]) 0 op hop with
                  ⟨i2, _, _, hcase⟩
                rcases hcase with ⟨hpath, _⟩ | ⟨s, hpath⟩
                · exact Or.inr ⟨[], hpath⟩
                · refine Or.inr ⟨i2 :: s, ?_⟩
                  rw [hpath]
                  simp
            · cases hop
termination_by T => sizeOf T

/-- Every operation emitted by the child recursion of `diff` comes from one
new-child index `i2` in `[i, i + cs.length)`: it addresses path `p` with
child index `i2`, or a node strictly below `p ++ [i2]`. -/
theorem diffChildren_shape : ∀ (cs full : List VNode) (p : List Nat) (i : Nat)
    (op : DiffOp), op ∈ diffChildren p cs full i →
    ∃ i2, i ≤ i2 ∧ i2 < i + cs.length ∧
      ((op.path = p ∧ ∀ j, op.argIndex = some j → j = i2) ∨
       (∃ s, op.path = p ++ i2 :: s))
  | [], _, p, i, op, hop => by rw [diffChildren] at hop; cases hop
  | c :: rest, full, p, i, op, hop => by
      rw [diffChildren] at hop
      rcases List.mem_append.mp hop with hl | hr
      · rcases diff_shape c (full.getD i VNode.vnull) p i op hl with hcase | hcase
        · exact ⟨i, Nat.le_refl i, by simp, Or.inl hcase⟩
        · exact ⟨i, Nat.le_refl i, by simp, Or.inr hcase⟩
      · rcases diffChildren_shape rest full p (i + 1) op hr with ⟨i2, h1, h2, hcase⟩
        refine ⟨i2, by omega, by simp at h2 ⊢; omega, hcase⟩
termination_by cs => sizeOf cs
end

/-! ## Facts about the observable module -/

/-- In an association list with distinct keys, `lookup` of the key of a
member returns the value of that member. -/
theorem lookup_of_mem_nodup {s : JSObj} (hs : (s.map Prod.fst).Nodup)
    {e : String × JSVal} (he : e ∈ s) : s.lookup e.1 = some e.2 := by
  induction s with
  | nil => cases he
  | cons x xs ih =>
    rw [List.map_cons, List.nodup_cons] at hs
    rcases List.mem_cons.mp he with rfl | hmem
    · simp [List.lookup]
    · have hx : ¬(e.1 == x.1) = true := by
        simp only [beq_iff_eq]
        intro hEq
        exact hs.1 (hEq ▸ List.mem_map_of_mem Prod.fst hmem)
      rw [show x = (x.1, x.2) from rfl, List.lookup_cons]
      simp only [hx]
      exact ih hs.2 hmem

/-- Indexing a snapshot with distinct keys at the key of a member yields the
value of that member. -/
theorem jsGet_of_mem_nodup {s : JSObj} (hs : (s.map Prod.fst).Nodup)
    {e : String × JSVal} (he : e ∈ s) : jsGet s e.1 = e.2 := by
  rw [jsGet, lookup_of_mem_nodup hs he]
  rfl

/-- `indexOf` finds a freshly appended item at the old length when the item
was not already present. -/
theorem jsIndexOf_append_not_mem {α : Type} [DecidableEq α] (l : List α) (a : α)
    (h : a ∉ l) : jsIndexOf (l ++ [a]) a = l.length := by
  induction l with
  | nil => simp [jsIndexOf]
  | cons x xs ih =>
    have hxa : ¬(x = a) := fun hEq => h (hEq ▸ List.mem_cons_self x xs)
    have hmem : a ∉ xs := fun hm => h (List.mem_cons_of_mem _ hm)
    rw [List.cons_append, jsIndexOf, if_neg hxa]
    simp only [ih hmem]
    rw [if_neg (by omega)]
    simp

/-- `indexOf` on a list containing the item finds its first occurrence:
the list splits as `l1 ++ item :: l2` with the index at `l1.length`, and
`splice(index, 1)` (modelled by `eraseIdx`) deletes exactly that
occurrence, leaving `l1 ++ l2`. -/
theorem jsIndexOf_first_occurrence {α : Type} [DecidableEq α] :
    ∀ (l : List α) (a : α), a ∈ l →
      ∃ l1 l2, l = l1 ++ a :: l2 ∧ jsIndexOf l a = (l1.length : Int) ∧
        l.eraseIdx (jsIndexOf l a).toNat = l1 ++ l2
  | [], a, h => absurd h (List.not_mem_nil a)
  | x :: xs, a, h => by
      by_cases hxa : x = a
      · subst hxa
        refine ⟨[], xs, rfl, by simp [jsIndexOf], by simp [jsIndexOf, List.eraseIdx]⟩
      · have hmem : a ∈ xs := by
          rcases List.mem_cons.mp h with rfl | hm
          · exact absurd rfl hxa
          · exact hm
        obtain ⟨l1, l2, hsplit, hidx, herase⟩ := jsIndexOf_first_occurrence xs a hmem
        have hidx2 : jsIndexOf (x :: xs) a = (((x :: l1).length : Nat) : Int) := by
          rw [jsIndexOf, if_neg hxa]
          simp only [hidx]
          rw [if_neg (by omega : ¬((l1.length : Int) = -1))]
          simp
        refine ⟨x :: l1, l2, by rw [List.cons_append, hsplit], hidx2, ?_⟩
        rw [hidx2]
        have htn : ((((x :: l1).length : Nat) : Int)).toNat = l1.length + 1 := by simp
        rw [htn]
        have h3 : xs.eraseIdx l1.length = l1 ++ l2 := by
          have h4 := herase
          rw [hidx] at h4
          simpa using h4
        show x :: xs.eraseIdx l1.length = (x :: l1) ++ l2
        rw [h3]
        rfl

/-! ## Facts about the `vNode` constructor -/

/-- `flattenArgs` distributes over concatenation of argument lists. -/
theorem flattenArgs_append (xs ys : List ChildArg) :
    flattenArgs (xs ++ ys) = flattenArgs xs ++ flattenArgs ys := by
  induction xs with
  | nil => simp [flattenArgs]
  | cons x rest ih => cases x <;> simp [flattenArgs, ih]

/-- A value passed as a plain (non-array) argument survives flattening. -/
theorem mem_flattenArgs_single {v : VNode} {nodes : List ChildArg}
    (h : ChildArg.single v ∈ nodes) : v ∈ flattenArgs nodes := by
  induction nodes with
  | nil => cases h
  | cons x rest ih =>
    rcases List.mem_cons.mp h with rfl | hm
    · exact List.mem_cons_self _ _
    · cases x with
      | single w => exact List.mem_cons_of_mem _ (ih hm)
      | arr vs => exact List.mem_append.mpr (Or.inr (ih hm))

/-! ## The claims -/

/-- C1: the specification states that `changed(a, b)` is true when both
nodes are NodeRep objects whose tags differ (here: equal attribute lists,
arbitrary differing tags).  The code instead reads the nonexistent `type`
property — the constructor only ever creates `tagName` — so two element
nodes with the same attribute mapping are never reported as changed,
whatever their tag names: `changed` returns `false` for every such pair,
for example for a `div` against a `span`. -/
theorem C1_changed_ignores_tag_difference (t1 t2 : String)
    (a : List (String × AVal)) (cs1 cs2 : List VNode) :
    changed (VNode.elem t1 a cs1) (VNode.elem t2 a cs2) = false :=
  changed_elem_elem t1 t2 a cs1 cs2

/-- C2, counterexample: `set(p)` whose merged snapshot `{...s, ...p}` is
shallowly equal to `s` (here even syntactically equal) still broadcasts to
every whole-object listener, because the guard in `notify` compares object
references and the merged object is always fresh.  The claim says no
whole-object listener is invoked in this situation. -/
theorem C2_set_shallow_equal_counterexample :
    spreadMerge [("a", JSVal.int 1)] [("a", JSVal.int 1)] = [("a", JSVal.int 1)] ∧
    (obsObjSet [("a", JSVal.int 1)] [("a", JSVal.int 1)]).2.objEvents =
      [([("a", JSVal.int 1)], [("a", JSVal.int 1)])] := by
  decide

/-- C2, amended: `set(p)` stores the merged snapshot and always notifies
whole-object listeners with `(newSnapshot, oldSnapshot)` — also when the
merged snapshot is shallowly equal to the old one, since the reference
guard never fires on a fresh merge; per-key subscribers are offered events
only for keys whose value actually changed (each event carries the new and
the old value of a key of the merged snapshot on which they differ), and
when the merged snapshot equals the old one no per-key event is emitted. -/
theorem C2_set_notifications_amended (s p : JSObj)
    (hs : (s.map Prod.fst).Nodup) :
    (obsObjSet s p).1 = spreadMerge s p ∧
    (obsObjSet s p).2.objEvents = [(spreadMerge s p, s)] ∧
    (∀ k nv ov, (k, nv, ov) ∈ (obsObjSet s p).2.keyEvents →
        nv ≠ ov ∧ ov = jsGet s k ∧ (k, nv) ∈ spreadMerge s p) ∧
    (spreadMerge s p = s → (obsObjSet s p).2.keyEvents = []) := by
  refine ⟨rfl, rfl, ?_, ?_⟩
  · intro k nv ov hk
    have hk2 : (k, nv, ov) ∈ (spreadMerge s p).filterMap
        (fun e => if jsGet s e.1 = e.2 then none else some (e.1, e.2, jsGet s e.1)) := hk
    rcases List.mem_filterMap.mp hk2 with ⟨e, he, hfe⟩
    by_cases hc : jsGet s e.1 = e.2
    · rw [if_pos hc] at hfe; cases hfe
    · rw [if_neg hc] at hfe
      simp only [Option.some.injEq, Prod.mk.injEq] at hfe
      obtain ⟨hek, henv, heov⟩ := hfe
      refine ⟨?_, ?_, ?_⟩
      · rw [← henv, ← heov]
        intro hEq
        exact hc hEq.symm
      · rw [← hek, heov]
      · rw [← hek, ← henv]
        exact he
  · intro hms
    have hform : (obsObjSet s p).2.keyEvents = (spreadMerge s p).filterMap
        (fun e => if jsGet s e.1 = e.2 then none else some (e.1, e.2, jsGet s e.1)) := rfl
    rw [hform, hms, List.filterMap_eq_nil_iff]
    intro e he
    rw [if_pos (jsGet_of_mem_nodup hs he)]

/-- C2, witness: the amended statement at the snapshot with the single key
`a` holding `1` and the update writing `x` under the fresh key `b`. -/
theorem C2_set_notifications_amended_witness :
    (([("a", JSVal.int 1)] : JSObj).map Prod.fst).Nodup ∧
    ((obsObjSet [("a", JSVal.int 1)] [("b", JSVal.str "x")]).1 =
        spreadMerge [("a", JSVal.int 1)] [("b", JSVal.str "x")] ∧
     (obsObjSet [("a", JSVal.int 1)] [("b", JSVal.str "x")]).2.objEvents =
        [(spreadMerge [("a", JSVal.int 1)] [("b", JSVal.str "x")], [("a", JSVal.int 1)])] ∧
     (∀ k nv ov, (k, nv, ov) ∈ (obsObjSet [("a", JSVal.int 1)] [("b", JSVal.str "x")]).2.keyEvents →
        nv ≠ ov ∧ ov = jsGet [("a", JSVal.int 1)] k ∧
          (k, nv) ∈ spreadMerge [("a", JSVal.int 1)] [("b", JSVal.str "x")]) ∧
     (spreadMerge [("a", JSVal.int 1)] [("b", JSVal.str "x")] = [("a", JSVal.int 1)] →
        (obsObjSet [("a", JSVal.int 1)] [("b", JSVal.str "x")]).2.keyEvents = [])) :=
  ⟨by decide, C2_set_notifications_amended [("a", JSVal.int 1)] [("b", JSVal.str "x")] (by decide)⟩

/-- C3, counterexample: the constructor keeps null/undefined entries — here
`vNode` is passed a null child and an array containing another null, and
both survive into `children`, contradicting the claim that the result is
null-pruned. -/
theorem C3_vnode_keeps_null_counterexample :
    childrenOf (vNode "div" (some []) [ChildArg.single (VNode.text "a"),
        ChildArg.single VNode.vnull, ChildArg.arr [VNode.text "b", VNode.vnull]]) =
      [VNode.text "a", VNode.vnull, VNode.text "b", VNode.vnull] ∧
    VNode.vnull ∈ childrenOf (vNode "div" (some []) [ChildArg.single (VNode.text "a"),
        ChildArg.single VNode.vnull, ChildArg.arr [VNode.text "b", VNode.vnull]]) := by
  constructor
  · rfl
  · show VNode.vnull ∈ [VNode.text "a", VNode.vnull, VNode.text "b", VNode.vnull]
    exact List.mem_cons_of_mem _ (List.mem_cons_self _ _)

/-- C3, amended: `vNode` produces a children sequence that is the
one-level-flattened concatenation of the passed children — array arguments
are spliced in, plain arguments are kept in place — but null/undefined
entries are NOT pruned: a null passed as a plain child is preserved in the
resulting children. -/
theorem C3_vnode_children_flatten_amended (t : String)
    (a : Option (List (String × AVal))) (pre suf : List ChildArg)
    (vs : List VNode) (v : VNode) :
    childrenOf (vNode t a (pre ++ [ChildArg.arr vs] ++ suf)) =
        flattenArgs pre ++ vs ++ flattenArgs suf ∧
    childrenOf (vNode t a (pre ++ [ChildArg.single v] ++ suf)) =
        flattenArgs pre ++ [v] ++ flattenArgs suf ∧
    ∀ nodes : List ChildArg, ChildArg.single VNode.vnull ∈ nodes →
        VNode.vnull ∈ childrenOf (vNode t a nodes) := by
  refine ⟨?_, ?_, ?_⟩
  · simp [vNode, childrenOf, flattenArgs_append, flattenArgs]
  · simp [vNode, childrenOf, flattenArgs_append, flattenArgs]
  · intro nodes hmem
    exact mem_flattenArgs_single hmem

/-- C3, witness: the amended statement on concrete argument lists, with the
null-preservation part applied to the singleton null argument list. -/
theorem C3_vnode_children_flatten_amended_witness :
    (childrenOf (vNode "div" none ([] ++ [ChildArg.arr [VNode.text "x"]] ++ [])) =
        flattenArgs [] ++ [VNode.text "x"] ++ flattenArgs [] ∧
     childrenOf (vNode "div" none ([] ++ [ChildArg.single VNode.vnull] ++ [])) =
        flattenArgs [] ++ [VNode.vnull] ++ flattenArgs []) ∧
    ChildArg.single VNode.vnull ∈ [ChildArg.single VNode.vnull] ∧
    VNode.vnull ∈ childrenOf (vNode "div" none [ChildArg.single VNode.vnull]) := by
  have h := C3_vnode_children_flatten_amended "div" none [] [] [VNode.text "x"] VNode.vnull
  exact ⟨⟨h.1, h.2.1⟩, List.mem_cons_self _ _,
    h.2.2 [ChildArg.single VNode.vnull] (List.mem_cons_self _ _)⟩

/-- C4: on an `Observable` holding `x`, `set` of the identical value leaves
the state unchanged and calls no listener; `set` of a different value `y`
swaps the stored item to `y`, keeps the listener list, and calls every
registered listener exactly once, in registration order, with `(y, x)`. -/
theorem C4_observable_set (α : Type) [DecidableEq α] (st : ObservableState α)
    (y : α) :
    obsSet st st.item = (st, []) ∧
    (st.item ≠ y →
      (obsSet st y).1.item = y ∧ (obsSet st y).1.listeners = st.listeners ∧
      (obsSet st y).2 = st.listeners.map (fun id => (id, y, st.item))) := by
  constructor
  · simp [obsSet]
  · intro h
    simp [obsSet, h]

/-- C4, witness: an observable holding `1` with two listeners; setting `1`
is a no-op and setting `2` notifies both listeners with `(2, 1)`. -/
theorem C4_observable_set_witness :
    obsSet (ObservableState.mk (1 : Nat) [10, 20]) 1 =
      (ObservableState.mk (1 : Nat) [10, 20], []) ∧
    ((ObservableState.mk (1 : Nat) [10, 20]).item ≠ 2 ∧
     (obsSet (ObservableState.mk (1 : Nat) [10, 20]) 2).1.item = 2 ∧
     (obsSet (ObservableState.mk (1 : Nat) [10, 20]) 2).1.listeners = [10, 20] ∧
     (obsSet (ObservableState.mk (1 : Nat) [10, 20]) 2).2 = [(10, 2, 1), (20, 2, 1)]) := by
  have h := C4_observable_set Nat (ObservableState.mk (1 : Nat) [10, 20]) 2
  have h2 := h.2 (by decide)
  exact ⟨h.1, by decide, h2.1, h2.2.1, h2.2.2.trans (by decide)⟩

/-- C5: diffing a NodeRep tree (no null children anywhere) against itself
emits no append, remove, or replace operation at any position. -/
theorem C5_diff_identical_trees_noop (T : VNode) (hT : noNull T = true)
    (p : List Nat) (i : Nat) : diff p T T i = [] :=
  diff_self_of_noNull T hT p i

/-- C5, witness: a two-level element tree diffed against itself. -/
theorem C5_diff_identical_trees_noop_witness :
    noNull (VNode.elem "div" [("id", AVal.str "x")]
      [VNode.text "hi", VNode.elem "b" [] []]) = true ∧
    diff [] (VNode.elem "div" [("id", AVal.str "x")]
        [VNode.text "hi", VNode.elem "b" [] []])
      (VNode.elem "div" [("id", AVal.str "x")]
        [VNode.text "hi", VNode.elem "b" [] []]) 0 = [] :=
  ⟨by simp [noNull, noNullList],
   C5_diff_identical_trees_noop _ (by simp [noNull, noNullList]) [] 0⟩

/-- C6: when the old node argument is absent (null/undefined), `diff`
renders the new node and appends it as the last child of the live parent,
whatever index was passed, leaving every existing live child untouched. -/
theorem C6_diff_absent_old_appends (t : String) (a : List (String × String))
    (l : List (String × Nat)) (cs : List RNode) (newNode : VNode) (idx : Nat) :
    applyOps (RNode.elem t a l cs) (diff [] newNode VNode.vnull idx) =
      RNode.elem t a l (cs ++ [render newNode]) := by
  rw [diff.eq_def]
  simp [isNullish, applyOps, applyOp, DiffOp.path]

/-- C7: the scenario `ObservableObject({})` with a subscriber on the key
`value`: after `set({value: 1})`, `push(text, Puerro)`, `remove(value)`,
the final snapshot holds `value` as `undefined` and `text` as `Puerro`,
and the last call the `value` subscriber received was
`(undefined, 1)`. -/
theorem C7_observable_object_scenario :
    (let st0 : JSObj := []
     let step1 := obsObjSet st0 [("value", JSVal.int 1)]
     let step2 := obsObjPush step1.1 "text" (JSVal.str "Puerro")
     let step3 := obsObjRemove step2.1 "value"
     step3.1 = [("value", JSVal.undef), ("text", JSVal.str "Puerro")] ∧
     (subscriberCalls [("value", 0)]
        (step1.2.keyEvents ++ step2.2.keyEvents ++ step3.2.keyEvents)).getLast? =
       some (0, JSVal.undef, JSVal.int 1)) := by
  decide

/-- C8, counterexample: when the added item already occurs in the backing
sequence, `remove` deletes the FIRST occurrence, not the appended copy, so
the sequence does not return to its pre-add state: starting from `[0, 1]`,
`add(0)` then `remove(0)` leaves `[1, 0]`. -/
theorem C8_add_remove_counterexample :
    (listRemove (listAdd (ObsListState.mk [0, 1] [] ([] : List Nat) []) 0).1 0).1.list
      = [1, 0] ∧ ([1, 0] : List Nat) ≠ [0, 1] := by
  decide

/-- C8, amended: after `add(item)` followed by `remove(item)`, in ALL
cases `count()` is restored, the backing sequence is restored up to
reordering (the same members as a multiset), and every `onAdd` listener
and every `onRemove` listener fired exactly once with the item; the
backing sequence itself is restored exactly provided the item was not
already present (otherwise `remove` deletes the first occurrence instead
of the appended copy, which can reorder the sequence). -/
theorem C8_add_remove_roundtrip_amended (α : Type) [DecidableEq α]
    (st : ObsListState α) (item : α) :
    (listRemove (listAdd st item).1 item).1.list.length = st.list.length ∧
    (listRemove (listAdd st item).1 item).1.list.Perm st.list ∧
    (listAdd st item).2 = st.addListeners.map (fun id => (id, item)) ∧
    (listRemove (listAdd st item).1 item).2 =
      st.removeListeners.map (fun id => (id, item)) ∧
    (item ∉ st.list → (listRemove (listAdd st item).1 item).1.list = st.list) := by
  have hmem : item ∈ st.list ++ [item] :=
    List.mem_append.mpr (Or.inr (List.mem_cons_self _ _))
  obtain ⟨l1, l2, hsplit, hidx, herase⟩ :=
    jsIndexOf_first_occurrence (st.list ++ [item]) item hmem
  have h0 : (0 : Int) ≤ jsIndexOf (st.list ++ [item]) item := by rw [hidx]; omega
  have hlist : (listRemove (listAdd st item).1 item).1.list = l1 ++ l2 := by
    show (if (0 : Int) ≤ jsIndexOf (st.list ++ [item]) item
      then (st.list ++ [item]).eraseIdx (jsIndexOf (st.list ++ [item]) item).toNat
      else st.list ++ [item]) = l1 ++ l2
    rw [if_pos h0, herase]
  have hperm : (l1 ++ l2).Perm st.list := by
    have hp1 : (st.list ++ [item]).Perm (item :: st.list) := List.perm_append_singleton _ _
    have hp2 : (l1 ++ item :: l2).Perm (item :: (l1 ++ l2)) := List.perm_middle
    have hp3 : (item :: st.list).Perm (item :: (l1 ++ l2)) :=
      hp1.symm.trans (hsplit ▸ hp2)
    exact (hp3.cons_inv).symm
  refine ⟨?_, ?_, rfl, rfl, ?_⟩
  · rw [hlist]
    exact hperm.length_eq
  · rw [hlist]
    exact hperm
  · intro h
    show (if (0 : Int) ≤ jsIndexOf (st.list ++ [item]) item
      then (st.list ++ [item]).eraseIdx (jsIndexOf (st.list ++ [item]) item).toNat
      else st.list ++ [item]) = st.list
    rw [jsIndexOf_append_not_mem st.list item h]
    rw [if_pos (by omega)]
    rw [show ((st.list.length : Int)).toNat = st.list.length from by omega]
    rw [List.eraseIdx_append_of_length_le (Nat.le_refl _)]
    simp

/-- C8, witness: the round trip on the backing sequence `[1, 2]` with the
fresh item `3`, one `onAdd` listener and one `onRemove` listener; the
exact-restoration part is exercised through the not-already-present
hypothesis. -/
theorem C8_add_remove_roundtrip_amended_witness :
    (3 : Nat) ∉ [1, 2] ∧
    ((listRemove (listAdd (ObsListState.mk [1, 2] [5] [6] []) 3).1 3).1.list.length
        = ([1, 2] : List Nat).length ∧
     (listRemove (listAdd (ObsListState.mk [1, 2] [5] [6] []) 3).1 3).1.list.Perm [1, 2] ∧
     (listAdd (ObsListState.mk [1, 2] [5] [6] []) 3).2 = [(5, 3)] ∧
     (listRemove (listAdd (ObsListState.mk [1, 2] [5] [6] []) 3).1 3).2 = [(6, 3)] ∧
     (listRemove (listAdd (ObsListState.mk [1, 2] [5] [6] []) 3).1 3).1.list = [1, 2]) := by
  have h := C8_add_remove_roundtrip_amended Nat (ObsListState.mk [1, 2] [5] [6] []) 3
  exact ⟨by decide, h.1, h.2.1, h.2.2.1.trans (by decide), h.2.2.2.1.trans (by decide),
    h.2.2.2.2 (by decide)⟩

/-- C9: when two elements share tag and attributes and the new children
list is shorter than the old one, `diff` removes no child of the recursed
live node at an index at or beyond the length of the new list (the trailing
live children rendered from the extra old children are left alone), and
every operation below that node descends through a child index smaller than
the new length — the recursion only visits the new children. -/
theorem C9_no_removal_beyond_new_children (t : String)
    (a : List (String × AVal)) (newCs oldCs : List VNode) (p : List Nat)
    (idx : Nat) (hlen : newCs.length < oldCs.length) :
    (∀ j, DiffOp.removeAt (p ++ [idx]) j ∈
        diff p (VNode.elem t a newCs) (VNode.elem t a oldCs) idx →
      j < newCs.length) ∧
    (∀ op ∈ diff p (VNode.elem t a newCs) (VNode.elem t a oldCs) idx,
      ∀ k s, op.path = p ++ idx :: k :: s → k < newCs.length) := by
  clear hlen
  have hd : diff p (VNode.elem t a newCs) (VNode.elem t a oldCs) idx =
      if (t == "") = true then [] else diffChildren (p ++ [idx]) newCs oldCs 0 := by
    rw [diff.eq_def]
    simp [isNullish, changed_elem_elem, childrenOf]
  constructor
  · intro j hj
    rw [hd] at hj
    by_cases ht : (t == "") = true
    · rw [if_pos ht] at hj; cases hj
    · rw [if_neg ht] at hj
      rcases diffChildren_shape newCs oldCs (p ++ [idx]) 0 _ hj with ⟨i2, _, hlt, hcase⟩
      rcases hcase with ⟨hpath, hidx⟩ | ⟨s, hpath⟩
      · have hji : j = i2 := hidx j rfl
        omega
      · simp only [DiffOp.path] at hpath
        simp at hpath
  · intro op hop k s hpk
    rw [hd] at hop
    by_cases ht : (t == "") = true
    · rw [if_pos ht] at hop; cases hop
    · rw [if_neg ht] at hop
      rcases diffChildren_shape newCs oldCs (p ++ [idx]) 0 _ hop with ⟨i2, _, hlt, hcase⟩
      rcases hcase with ⟨hpath, _⟩ | ⟨s2, hpath⟩
      · rw [hpk] at hpath
        simp at hpath
      · rw [hpk] at hpath
        have h2 : idx :: k :: s = idx :: i2 :: s2 := by
          have h3 := List.append_cancel_left
            ((List.append_assoc p [idx] (i2 :: s2)).symm ▸ hpath)
          simpa using h3
        have hk : k = i2 := by
          injection h2 with h3 h4
          injection h4
        omega

/-- C9, witness: a one-child new list against a two-child old list below a
`div`; the only removal `diff` performs sits at index `0 < 1`. -/
theorem C9_no_removal_beyond_new_children_witness :
    ([VNode.vnull] : List VNode).length <
      ([VNode.text "a", VNode.text "b"] : List VNode).length ∧
    ((∀ j, DiffOp.removeAt ([] ++ [0]) j ∈
        diff [] (VNode.elem "div" [] [VNode.vnull])
          (VNode.elem "div" [] [VNode.text "a", VNode.text "b"]) 0 →
      j < ([VNode.vnull] : List VNode).length) ∧
     (∀ op ∈ diff [] (VNode.elem "div" [] [VNode.vnull])
          (VNode.elem "div" [] [VNode.text "a", VNode.text "b"]) 0,
      ∀ k s, op.path = [] ++ 0 :: k :: s → k < ([VNode.vnull] : List VNode).length)) :=
  ⟨by decide, C9_no_removal_beyond_new_children "div" [] [VNode.vnull]
    [VNode.text "a", VNode.text "b"] [] 0 (by decide)⟩

/-- C10: `onChange` immediately calls the new callback exactly once with
the current snapshot as both arguments, and `subscribe` immediately calls
the new per-key callback exactly once with the current value of the key as
both arguments; neither touches the snapshot, and both record the callback
at the end of the corresponding registration list. -/
theorem C10_immediate_initial_callbacks (st : ObsObjState) (cb ck : Nat)
    (k : String) :
    (obsObjOnChange st cb).1.object = st.object ∧
    (obsObjOnChange st cb).1.listeners = st.listeners ++ [cb] ∧
    (obsObjOnChange st cb).2 = [(cb, st.object, st.object)] ∧
    (obsObjSubscribe st k ck).1.object = st.object ∧
    (obsObjSubscribe st k ck).1.subscribers = st.subscribers ++ [(k, ck)] ∧
    (obsObjSubscribe st k ck).2 = [(ck, jsGet st.object k, jsGet st.object k)] :=
  ⟨rfl, rfl, rfl, rfl, rfl, rfl⟩

end Puerro
